import Mathlib

/-!
Verification development for the codejam25 session-orchestration backend
(matchmaking queue, lobby supervisor, game session pipeline) and two
client-side functions (the prompt card component and the rating update).

The backend service layer (matchmaking_service.py, lobby_service.py,
game_service.py, ai_service.py) is documented in the repository but its
source is not part of the source tree given here; those operations are
modelled from the specification text, as noted on each definition.
The prompt card component and the rating update are translated directly
from the TypeScript sources in the repository.
-/

namespace CodeJam

/-- Association-list lookup keyed by player handle (first match wins),
mirroring a Python dict read. -/
def afind {β : Type} (k : String) : List (String × β) → Option β
  | [] => none
  | (a, b) :: t => if a = k then some b else afind k t

/-- Association-list update, mirroring a Python dict write: replace the
existing entry for the key, or append a fresh one. -/
def aset {β : Type} (k : String) (v : β) : List (String × β) → List (String × β)
  | [] => [(k, v)]
  | (a, b) :: t => if a = k then (k, v) :: t else (a, b) :: aset k v t

/-- Keys of an association list. -/
def akeys {β : Type} (l : List (String × β)) : List String := l.map (·.1)

/-! ## Game data model

Modelled from the spec: section 3 of the specification (the Game entity of
game_service.py, which is absent from the source tree). Fields follow the
spec verbatim; scores are rationals standing for the JSON numbers. -/

inductive GameStatus
  | pending
  | processing
  | completed
  | abandoned
deriving DecidableEq, Repr

inductive GameSource
  | matchmaking
  | lobby
  | manual
deriving DecidableEq, Repr

/-- Generated output sections (markup, style, behavior). -/
structure Artifact where
  markup : String
  style : String
  behavior : String
deriving DecidableEq, Repr

/-- Modelled from the spec: the Game entity of section 3. `prompts` maps a
handle to its ordered prompt sequence, `artifacts` to the most recent
generated output, `scores` to the numeric score once judged. -/
structure Game where
  players : List String
  assignedTarget : Option String
  prompts : List (String × List String)
  artifacts : List (String × Artifact)
  scores : List (String × ℚ)
  winner : Option String
  status : GameStatus
  source : GameSource
deriving DecidableEq, Repr

/-- Modelled from the spec: game creation (create_game of game_service.py):
a fresh Game in status pending with empty prompt, artifact and score maps. -/
def createGame (players : List String) (target : Option String)
    (src : GameSource) : Game :=
  { players := players
    assignedTarget := target
    prompts := []
    artifacts := []
    scores := []
    winner := none
    status := .pending
    source := src }

/-! ## Matchmaking queue

Modelled from the spec: section 4.1 (matchmaking_service.py, absent from the
source tree). State is the ordered waiting list, the matched-players map
(handle to game id), the created games, and a fresh-id counter. -/

inductive JoinResult
  | queued (position : Nat)
  | matched (gameId : Nat)
deriving DecidableEq, Repr

inductive CancelResult
  | removed
  | absent
deriving DecidableEq, Repr

structure MMState where
  waiting : List String
  matched : List (String × Nat)
  games : List (Nat × Game)
  nextId : Nat
deriving DecidableEq, Repr

/-- The empty queue state the service starts from. -/
def mmStart : MMState := { waiting := [], matched := [], games := [], nextId := 0 }

/-- One-based position of a handle in the waiting list, if present. -/
def pos1 (h : String) : List String → Option Nat
  | [] => none
  | x :: xs => if x = h then some 1 else (pos1 h xs).map (· + 1)

/-- Modelled from the spec: join_queue of section 4.1.
1. A handle already in matchedPlayers gets its stored game back, with no
   state change (the idempotence fix).
2. A handle already waiting gets its one-based position.
3. Otherwise the handle is appended; if the waiting list now holds at least
   two handles, the two oldest are popped, a Game is created with source
   matchmaking, both popped handles are recorded in matchedPlayers, and the
   caller receives the match.
4. Otherwise the caller is queued at position equal to the new length. -/
def joinQueue (h : String) (s : MMState) : JoinResult × MMState :=
  match afind h s.matched with
  | some gid => (.matched gid, s)
  | none =>
    match pos1 h s.waiting with
    | some p => (.queued p, s)
    | none =>
      match s.waiting ++ [h] with
      | a :: b :: rest =>
        let gid := s.nextId
        let g := createGame [a, b] none .matchmaking
        (.matched gid,
          { waiting := rest
            matched := (a, gid) :: (b, gid) :: s.matched
            games := (gid, g) :: s.games
            nextId := s.nextId + 1 })
      | w => (.queued w.length, { s with waiting := w })

/-- Modelled from the spec: cancel of section 4.1. Removes the handle from
the waiting list if present (removed); a matched or unknown handle is a
no-op (absent). -/
def cancelQ (h : String) (s : MMState) : CancelResult × MMState :=
  if h ∈ s.waiting then
    (.removed, { s with waiting := s.waiting.erase h })
  else
    (.absent, s)

/-- An externally invocable queue operation. -/
inductive MMOp
  | join (h : String)
  | cancel (h : String)

/-- State transition of one queue operation. -/
def mmStep (op : MMOp) (s : MMState) : MMState :=
  match op with
  | .join h => (joinQueue h s).2
  | .cancel h => (cancelQ h s).2

/-- Run a sequence of queue operations. -/
def mmRun (ops : List MMOp) (s : MMState) : MMState :=
  match ops with
  | [] => s
  | op :: t => mmRun t (mmStep op s)

/-- Queue states reachable from the start state by any operation sequence. -/
inductive MMReach : MMState → Prop
  | start : MMReach mmStart
  | step (op : MMOp) {s : MMState} : MMReach s → MMReach (mmStep op s)

/-- The structural invariant of the queue: no handle is both waiting and
matched, the waiting list has no duplicates, and (because pairing fires as
soon as two handles wait) it never holds more than one handle. -/
def MMInv (s : MMState) : Prop :=
  (∀ h ∈ s.waiting, afind h s.matched = none) ∧
    s.waiting.Nodup ∧ s.waiting.length ≤ 1

/-! ## Shared service errors and handle validation -/

/-- Modelled from the spec: the error taxonomy of section 7 (base.py of the
service layer, absent from the source tree). -/
inductive ServiceError
  | validation
  | notFound
  | conflict
deriving DecidableEq, Repr

/-- Whitespace trim on both ends, written structurally over the character
list so that it evaluates inside the kernel (String.trim itself is blocked
on well-founded recursion). -/
def strTrim (s : String) : String :=
  ⟨((s.data.dropWhile Char.isWhitespace).reverse.dropWhile
      Char.isWhitespace).reverse⟩

/-- Modelled from the spec: normalize_name of base.py — a handle is valid
when, after trimming, it has 2 to 64 characters; the trimmed form is used. -/
def normName (s : String) : Option String :=
  let t := strTrim s
  if 2 ≤ t.length ∧ t.length ≤ 64 then some t else none

/-! ## Lobby supervisor

Modelled from the spec: section 4.2 (lobby_service.py, absent from the
source tree). A lobby store holds the lobby table, the game table that
start_lobby writes into, and fresh-id counters. Every operation validates
and then either fails returning the untouched store, or commits the whole
update at once. -/

inductive LobbyStatus
  | waiting
  | full
  | started
deriving DecidableEq, Repr

structure Lobby where
  host : String
  players : List String
  readyState : List (String × Bool)
  status : LobbyStatus
deriving DecidableEq, Repr

/-- Lookup in a Nat-keyed table (lobby or game ids). -/
def nfind {β : Type} (k : Nat) : List (Nat × β) → Option β
  | [] => none
  | (a, b) :: t => if a = k then some b else nfind k t

/-- Update in a Nat-keyed table. -/
def nset {β : Type} (k : Nat) (v : β) : List (Nat × β) → List (Nat × β)
  | [] => [(k, v)]
  | (a, b) :: t => if a = k then (k, v) :: t else (a, b) :: nset k v t

/-- Delete from a Nat-keyed table. -/
def ndel {β : Type} (k : Nat) : List (Nat × β) → List (Nat × β)
  | [] => []
  | (a, b) :: t => if a = k then ndel k t else (a, b) :: ndel k t

structure LobStore where
  lobbies : List (Nat × Lobby)
  games : List (Nat × Game)
  nextLobbyId : Nat
  nextGameId : Nat
deriving DecidableEq, Repr

def lobStart : LobStore :=
  { lobbies := [], games := [], nextLobbyId := 0, nextGameId := 0 }

/-- Outcome of a lobby operation. -/
inductive LobResult
  | created (lobbyId : Nat)
  | ok
  | deleted
  | startedGame (gameId : Nat)
  | err (e : ServiceError)
deriving DecidableEq, Repr

/-- Modelled from the spec: create_lobby — a new lobby whose only player is
the host, ready state false, status waiting. -/
def createLobby (host : String) (s : LobStore) : LobResult × LobStore :=
  match normName host with
  | none => (.err .validation, s)
  | some h =>
    let lb : Lobby :=
      { host := h, players := [h], readyState := [(h, false)], status := .waiting }
    (.created s.nextLobbyId,
      { s with
        lobbies := (s.nextLobbyId, lb) :: s.lobbies
        nextLobbyId := s.nextLobbyId + 1 })

/-- Modelled from the spec: join_lobby — ConflictError if the lobby already
has 2 players or is started; otherwise the handle is appended, given ready
state false, and the lobby becomes full. -/
def joinLobby (lid : Nat) (handle : String) (s : LobStore) : LobResult × LobStore :=
  match normName handle with
  | none => (.err .validation, s)
  | some h =>
    match nfind lid s.lobbies with
    | none => (.err .notFound, s)
    | some lb =>
      if lb.players.length = 2 ∨ lb.status = .started then (.err .conflict, s)
      else
        let lb2 : Lobby :=
          { lb with
            players := lb.players ++ [h]
            readyState := aset h false lb.readyState
            status := .full }
        (.ok, { s with lobbies := nset lid lb2 s.lobbies })

/-- Modelled from the spec: leave_lobby — the host leaving deletes the
lobby; another participant leaving is removed, its ready entry dropped, and
the status reverts to waiting. A started lobby admits no further mutation
(ConflictError). -/
def leaveLobby (lid : Nat) (handle : String) (s : LobStore) : LobResult × LobStore :=
  match normName handle with
  | none => (.err .validation, s)
  | some h =>
    match nfind lid s.lobbies with
    | none => (.err .notFound, s)
    | some lb =>
      if lb.status = .started then (.err .conflict, s)
      else if h = lb.host then
        (.deleted, { s with lobbies := ndel lid s.lobbies })
      else if h ∈ lb.players then
        let lb2 : Lobby :=
          { lb with
            players := lb.players.erase h
            readyState := lb.readyState.filter (fun e => e.1 ≠ h)
            status := .waiting }
        (.ok, { s with lobbies := nset lid lb2 s.lobbies })
      else (.err .notFound, s)

/-- Modelled from the spec: toggle_ready — flips the boolean for that
handle and changes nothing else; it does not itself change the status. A
started lobby admits no further mutation (ConflictError). -/
def toggleReady (lid : Nat) (handle : String) (s : LobStore) : LobResult × LobStore :=
  match normName handle with
  | none => (.err .validation, s)
  | some h =>
    match nfind lid s.lobbies with
    | none => (.err .notFound, s)
    | some lb =>
      if lb.status = .started then (.err .conflict, s)
      else
        match afind h lb.readyState with
        | none => (.err .notFound, s)
        | some b =>
          let lb2 : Lobby := { lb with readyState := aset h (!b) lb.readyState }
          (.ok, { s with lobbies := nset lid lb2 s.lobbies })

/-- Modelled from the spec: start_lobby — fails with ConflictError unless
the caller is the host, the lobby has exactly 2 players, every ready entry
is true and the lobby is not already started; on success a Game with source
lobby and an optional assigned target is created and the lobby becomes
started, atomically. -/
def startLobby (lid : Nat) (caller : String) (target : Option String)
    (s : LobStore) : LobResult × LobStore :=
  match normName caller with
  | none => (.err .validation, s)
  | some h =>
    match nfind lid s.lobbies with
    | none => (.err .notFound, s)
    | some lb =>
      if h = lb.host ∧ lb.players.length = 2 ∧
          lb.readyState.all (fun e => e.2) ∧ lb.status ≠ .started then
        let gid := s.nextGameId
        (.startedGame gid,
          { s with
            lobbies := nset lid { lb with status := .started } s.lobbies
            games := (gid, createGame lb.players target .lobby) :: s.games
            nextGameId := s.nextGameId + 1 })
      else (.err .conflict, s)

/-- An externally invocable lobby operation. -/
inductive LOp
  | create (host : String)
  | join (lid : Nat) (h : String)
  | leave (lid : Nat) (h : String)
  | toggle (lid : Nat) (h : String)
  | start (lid : Nat) (caller : String) (target : Option String)

/-- Result and state transition of one lobby operation. -/
def lobStep (op : LOp) (s : LobStore) : LobResult × LobStore :=
  match op with
  | .create host => createLobby host s
  | .join lid h => joinLobby lid h s
  | .leave lid h => leaveLobby lid h s
  | .toggle lid h => toggleReady lid h s
  | .start lid caller target => startLobby lid caller target s

/-- Run a sequence of lobby operations. -/
def lobRun (ops : List LOp) (s : LobStore) : LobStore :=
  match ops with
  | [] => s
  | op :: t => lobRun t (lobStep op s).2

/-- Lobby stores reachable from the empty store. -/
inductive LobReach : LobStore → Prop
  | start : LobReach lobStart
  | step (op : LOp) {s : LobStore} : LobReach s → LobReach (lobStep op s).2

/-! ## Game session pipeline

Modelled from the spec: sections 4.3 and 4.4 (game_service.py and
ai_service.py, absent from the source tree). The external generation and
scoring capabilities are parameters: gen turns a prompt into an artifact,
scoreFn judges an artifact against the optional assigned target.
submit_prompt appends the prompt, stores the freshly generated artifact,
and — only when both players have an artifact and the game is not already
completed — scores both players and completes the game, the winner being
the strictly higher scorer and a tie leaving the winner unset. -/

structure GStore where
  games : List (Nat × Game)
  nextGameId : Nat
deriving DecidableEq, Repr

def gStart : GStore := { games := [], nextGameId := 0 }

inductive GRes
  | created (gameId : Nat)
  | ok
  | err (e : ServiceError)
deriving DecidableEq, Repr

/-- Modelled from the spec: create_game validation — exactly 2 distinct
valid handles. -/
def gCreate (players : List String) (target : Option String) (src : GameSource)
    (s : GStore) : GRes × GStore :=
  match players.mapM normName with
  | none => (.err .validation, s)
  | some ps =>
    if ps.length = 2 ∧ ps.Nodup then
      (.created s.nextGameId,
        { games := (s.nextGameId, createGame ps target src) :: s.games
          nextGameId := s.nextGameId + 1 })
    else (.err .validation, s)

/-- Scoring step: score both players of a completed generation round and
set the winner to the strictly higher scorer (a tie leaves no winner). -/
def judgeGame (scoreFn : Artifact → Option String → ℚ) (a b : String)
    (g : Game) : Game :=
  match afind a g.artifacts, afind b g.artifacts with
  | some artA, some artB =>
    let sA := scoreFn artA g.assignedTarget
    let sB := scoreFn artB g.assignedTarget
    { g with
      scores := aset b sB (aset a sA g.scores)
      winner := if sB < sA then some a else if sA < sB then some b else none
      status := .completed }
  | _, _ => g

/-- The per-game effect of a prompt submission: append the prompt to the
player's sequence, store the freshly generated artifact, then — exactly
when the game is not already completed and both players now have an
artifact — run the judging step. -/
def recordAndMaybeJudge (gen : String → Artifact)
    (scoreFn : Artifact → Option String → ℚ) (h : String) (p : String)
    (g : Game) : Game :=
  let g1 : Game :=
    { g with
      prompts := aset h (((afind h g.prompts).getD []) ++ [p]) g.prompts
      artifacts := aset h (gen p) g.artifacts }
  match g1.players with
  | [a, b] =>
    if g1.status ≠ .completed ∧
        (afind a g1.artifacts).isSome ∧ (afind b g1.artifacts).isSome then
      judgeGame scoreFn a b g1
    else g1
  | _ => g1

/-- Modelled from the spec: submit_prompt of ai_service.py together with
record_prompt of game_service.py. Validates the prompt (non-empty, at most
1000 characters) and the participant, then applies the recording and
conditional judging step to the stored game. -/
def submitPrompt (gen : String → Artifact) (scoreFn : Artifact → Option String → ℚ)
    (gid : Nat) (handle : String) (p : String) (s : GStore) : GRes × GStore :=
  if p = "" ∨ 1000 < p.length then (.err .validation, s)
  else
    match normName handle with
    | none => (.err .validation, s)
    | some h =>
      match nfind gid s.games with
      | none => (.err .notFound, s)
      | some g =>
        if h ∈ g.players then
          (.ok, { s with
            games := nset gid (recordAndMaybeJudge gen scoreFn h p g) s.games })
        else (.err .notFound, s)

/-- Modelled from the spec: complete_game of game_service.py — a failsafe
that bypasses generation and forces the given terminal fields directly. -/
def completeManually (gid : Nat) (arts : List (String × Artifact))
    (scores : List (String × ℚ)) (winner : Option String) (status : GameStatus)
    (s : GStore) : GRes × GStore :=
  match nfind gid s.games with
  | none => (.err .notFound, s)
  | some g =>
    (.ok,
      { s with
        games := nset gid
          { g with
            artifacts := arts
            scores := scores
            winner := winner
            status := status } s.games })

/-- An operation of the automatic pipeline (manual completion is a
bypassing failsafe and is deliberately outside this reachability). -/
inductive GOp
  | create (players : List String) (target : Option String) (src : GameSource)
  | submit (gid : Nat) (h : String) (p : String)

def gStep (gen : String → Artifact) (scoreFn : Artifact → Option String → ℚ)
    (op : GOp) (s : GStore) : GRes × GStore :=
  match op with
  | .create players target src => gCreate players target src s
  | .submit gid h p => submitPrompt gen scoreFn gid h p s

def gRun (gen : String → Artifact) (scoreFn : Artifact → Option String → ℚ)
    (ops : List GOp) (s : GStore) : GStore :=
  match ops with
  | [] => s
  | op :: t => gRun gen scoreFn t (gStep gen scoreFn op s).2

/-- Game stores reachable through the automatic pipeline. -/
inductive GReach (gen : String → Artifact) (scoreFn : Artifact → Option String → ℚ) :
    GStore → Prop
  | start : GReach gen scoreFn gStart
  | step (op : GOp) {s : GStore} :
      GReach gen scoreFn s → GReach gen scoreFn (gStep gen scoreFn op s).2

/-! ## Prompt card component

Translated from src/client/components/ui/ai-assistant-card.tsx. The
component state is the countdown, the textarea content and the submitted
flag; callback invocations of onSubmit are returned as explicit emissions.
Props that matter to the submission logic are whether onSubmit was passed,
the submittedPrompts list and allowMultipleSubmissions. -/

structure CardProps where
  hasOnSubmit : Bool
  submittedPrompts : List String
  allowMultipleSubmissions : Bool
deriving DecidableEq, Repr

structure CardState where
  timeLeft : Nat
  promptText : String
  isSubmitted : Bool
deriving DecidableEq, Repr

/-- The state the component mounts with: 30 seconds, the given textarea
content, not yet submitted. -/
def cardStart (text : String) : CardState :=
  { timeLeft := 30, promptText := text, isSubmitted := false }

/-- One second of the interval callback in the timer effect: the countdown
clamps at zero, and exactly at the transition to zero — when no submission
has happened, onSubmit was provided and no prompt was submitted before —
the component auto-submits onSubmit(true, promptText) with no check that
the text is non-empty. -/
def tick (pr : CardProps) (s : CardState) : CardState × Option (Bool × String) :=
  let newTime := s.timeLeft - 1
  if newTime = 0 ∧ s.isSubmitted = false ∧ pr.hasOnSubmit = true ∧
      pr.submittedPrompts.length = 0 then
    ({ s with timeLeft := newTime, isSubmitted := true }, some (true, s.promptText))
  else
    ({ s with timeLeft := newTime }, none)

/-- Run the interval n times, collecting the onSubmit emissions in order. -/
def tickRun (pr : CardProps) (n : Nat) (s : CardState) :
    CardState × List (Bool × String) :=
  match n with
  | 0 => (s, [])
  | m + 1 =>
    let (s1, e) := tick pr s
    let (s2, es) := tickRun pr m s1
    (s2, e.toList ++ es)

/-- The submit button of the card: disabled when time is up or the trimmed
text is empty. -/
def submitEnabled (s : CardState) : Bool :=
  !(s.timeLeft == 0) && !(strTrim s.promptText == "")

/-- handleSubmit of the card: allowed on a first submission, or on a later
one when multiple submissions are allowed, time remains and the trimmed
text is non-empty; it invokes onSubmit(true, promptText) only when the
trimmed text is non-empty, clearing the textarea afterwards. -/
def handleSubmit (pr : CardProps) (s : CardState) : CardState × Option (Bool × String) :=
  if s.isSubmitted = false ∨
      (pr.allowMultipleSubmissions = true ∧ 0 < s.timeLeft ∧ strTrim s.promptText ≠ "") then
    let s1 := if s.isSubmitted = false then { s with isSubmitted := true } else s
    if pr.hasOnSubmit = true ∧ strTrim s.promptText ≠ "" then
      ({ s1 with promptText := "" }, some (true, s.promptText))
    else (s1, none)
  else (s, none)

/-! ## Rating update

Translated from the updateRating function of the dashboard page
(src/unnamed/part_010). JavaScript numbers are modelled as rationals and
the library call Math.pow(10, x) is an explicit function parameter pow10,
so the theorem quantifies over every behavior of the exponential. -/

inductive DuelResult
  | win
  | loss
  | draw
deriving DecidableEq, Repr

/-- JavaScript Math.round: half-integers round toward positive infinity. -/
def jsRound (q : ℚ) : ℤ := ⌊q + 1 / 2⌋

/-- updateRating from the dashboard page: an Elo-style update mapped onto a
1 to 100 scale and clamped. -/
def updateRating (pow10 : ℚ → ℚ) (current opponent : ℚ) (result : DuelResult) : ℤ :=
  let K : ℚ := 16
  let expected : ℚ := 1 / (1 + pow10 ((opponent - current) / 400))
  let score : ℚ := match result with | .win => 1 | .draw => 1 / 2 | .loss => 0
  let newRating := current + K * (score - expected)
  let normalized := ((newRating - 800) / (2400 - 800)) * 99 + 1
  max 1 (min 100 (jsRound normalized))

/-! ## Invariants and concrete scenario states used by the theorems -/

/-- The per-game invariant maintained by the automatic pipeline: two
distinct players; a completed game carries a score for each player and a
winner that is exactly the strict comparison of the two scores; a game not
yet completed carries no winner and no scores. -/
def GameOk (g : Game) : Prop :=
  ∃ a b, g.players = [a, b] ∧ a ≠ b ∧
    ((g.status = .completed ∧ ∃ x y,
        afind a g.scores = some x ∧ afind b g.scores = some y ∧
        g.winner = (if y < x then some a else if x < y then some b else none)) ∨
      (g.status ≠ .completed ∧ g.winner = none ∧ g.scores = []))

/-- Store-wide game invariant. -/
def GSInv (s : GStore) : Prop := ∀ gid g, nfind gid s.games = some g → GameOk g

/-- Store-wide lobby invariant: no lobby ever holds more than 2 players. -/
def LobInv (s : LobStore) : Prop :=
  ∀ lid lb, nfind lid s.lobbies = some lb → lb.players.length ≤ 2

/-- Queue state after handles A and B joined the empty queue in order: both
are matched to game 0. -/
def mmTwo : MMState := mmStep (.join "B") (mmStep (.join "A") mmStart)

/-- Queue state after only handle A joined the empty queue. -/
def mmOne : MMState := mmStep (.join "A") mmStart

/-- A concrete generation capability: the artifact carries the prompt as
markup. -/
def gen0 : String → Artifact := fun p => ⟨p, "", ""⟩

/-- A concrete scoring capability that always returns 80 (forces a tie). -/
def score80 : Artifact → Option String → ℚ := fun _ _ => 80

/-- A concrete scoring capability keyed on markup length (distinct scores
for distinct prompts). -/
def scoreLen : Artifact → Option String → ℚ := fun a _ => (a.markup.length : ℚ)

/-- The pipeline operations of the two-player scenario: create the game for
Nova and Echo, then both submit a prompt. -/
def novaEchoOps : List GOp :=
  [.create ["Nova", "Echo"] none .matchmaking,
    .submit 0 "Nova" "dashboard", .submit 0 "Echo" "login"]

/-- Game store after the Nova/Echo scenario under the tying scorer: game 0
is completed with scores 80 and 80 and no winner. -/
def tieStore : GStore := gRun gen0 score80 novaEchoOps gStart

/-- The completed tied game of the scenario. -/
def tieGame : Game := (nfind 0 tieStore.games).getD (createGame [] none .manual)

/-- Game store after the Nova/Echo scenario under the length scorer: game 0
is completed with scores 9 and 5 and winner Nova. -/
def winStore : GStore := gRun gen0 scoreLen novaEchoOps gStart

/-- The completed decided game of that scenario. -/
def winGame : Game := (nfind 0 winStore.games).getD (createGame [] none .manual)

/-- Lobby store after Ann created lobby 0. -/
def lsOne : LobStore := (lobStep (.create "Ann") lobStart).2

/-- Lobby store after Ann created lobby 0 and Bob joined it (full). -/
def lsTwo : LobStore := (lobStep (.join 0 "Bob") lsOne).2

/-- The full two-player lobby of that store. -/
def lsTwoLobby : Lobby :=
  (nfind 0 lsTwo.lobbies).getD ⟨"", [], [], .waiting⟩

/-! ## Helper lemmas -/

theorem afind_aset_self {β : Type} (k : String) (v : β) (l : List (String × β)) :
    afind k (aset k v l) = some v := by
  induction l with
  | nil => simp [aset, afind]
  | cons e t ih =>
    obtain ⟨a, b⟩ := e
    by_cases hak : a = k <;> simp [aset, afind, hak, ih]

theorem afind_aset_ne {β : Type} {k j : String} (v : β) (l : List (String × β))
    (hjk : j ≠ k) : afind j (aset k v l) = afind j l := by
  have hkj : k ≠ j := Ne.symm hjk
  induction l with
  | nil => simp [aset, afind, hkj]
  | cons e t ih =>
    obtain ⟨a, b⟩ := e
    by_cases hak : a = k
    · subst hak
      simp [aset, afind, hkj]
    · by_cases haj : a = j <;> simp [aset, afind, hak, haj, hjk, ih]

theorem nfind_nset_self {β : Type} (k : Nat) (v : β) (l : List (Nat × β)) :
    nfind k (nset k v l) = some v := by
  induction l with
  | nil => simp [nset, nfind]
  | cons e t ih =>
    obtain ⟨a, b⟩ := e
    by_cases hak : a = k <;> simp [nset, nfind, hak, ih]

theorem nfind_nset_ne {β : Type} {k j : Nat} (v : β) (l : List (Nat × β))
    (hjk : j ≠ k) : nfind j (nset k v l) = nfind j l := by
  have hkj : k ≠ j := Ne.symm hjk
  induction l with
  | nil => simp [nset, nfind, hkj]
  | cons e t ih =>
    obtain ⟨a, b⟩ := e
    by_cases hak : a = k
    · subst hak
      simp [nset, nfind, hkj]
    · by_cases haj : a = j <;> simp [nset, nfind, hak, haj, hjk, ih]

theorem nfind_ndel {β : Type} (k j : Nat) (l : List (Nat × β)) :
    nfind j (ndel k l) = if j = k then none else nfind j l := by
  induction l with
  | nil => simp [ndel, nfind]
  | cons e t ih =>
    obtain ⟨a, b⟩ := e
    by_cases hak : a = k
    · subst hak
      have h1 : ndel a ((a, b) :: t) = ndel a t := by simp [ndel]
      rw [h1, ih]
      by_cases hja : j = a
      · simp [hja]
      · simp [hja, nfind, Ne.symm hja]
    · have h1 : ndel k ((a, b) :: t) = (a, b) :: ndel k t := by simp [ndel, hak]
      rw [h1]
      by_cases hja : j = a
      · subst hja
        simp [nfind, hak]
      · simp [nfind, Ne.symm hja, ih]

theorem pos1_mem {h : String} {l : List String} {p : Nat}
    (hp : pos1 h l = some p) : h ∈ l := by
  induction l generalizing p with
  | nil => simp [pos1] at hp
  | cons x t ih =>
    by_cases hxh : x = h
    · simp [hxh]
    · rcases hq : pos1 h t with _ | q
      · rw [pos1] at hp
        simp [hxh, hq] at hp
      · exact List.mem_cons_of_mem x (ih hq)

theorem pos1_isSome_of_mem {h : String} {l : List String} :
    h ∈ l → (pos1 h l).isSome := by
  induction l with
  | nil => intro hm; cases hm
  | cons x t ih =>
    intro hm
    by_cases hxh : x = h
    · simp [pos1, hxh]
    · have hmt : h ∈ t := by
        rcases List.mem_cons.mp hm with he | ht
        · exact absurd he.symm hxh
        · exact ht
      rcases hq : pos1 h t with _ | q
      · have hs := ih hmt
        rw [hq] at hs
        simp at hs
      · simp [pos1, hxh, hq]

theorem pos1_none_not_mem {h : String} {l : List String}
    (hp : pos1 h l = none) : h ∉ l := by
  intro hm
  have := pos1_isSome_of_mem hm
  rw [hp] at this
  simp at this

/-! ## Matchmaking invariant lemmas -/

theorem cancelQ_matched (h : String) (s : MMState) :
    (cancelQ h s).2.matched = s.matched := by
  unfold cancelQ
  split <;> rfl

theorem joinQueue_of_matched {h : String} {s : MMState} {gid : Nat}
    (hm : afind h s.matched = some gid) : joinQueue h s = (.matched gid, s) := by
  unfold joinQueue
  rw [hm]

theorem mmInv_start : MMInv mmStart := by
  refine ⟨?_, ?_, ?_⟩ <;> simp [MMInv, mmStart]

theorem mmInv_step (op : MMOp) {s : MMState} (hs : MMInv s) : MMInv (mmStep op s) := by
  obtain ⟨w, m, gs, nid⟩ := s
  obtain ⟨hdisj, hnd, hlen⟩ := hs
  cases op with
  | cancel h =>
    show MMInv (cancelQ h ⟨w, m, gs, nid⟩).2
    unfold cancelQ
    split
    · refine ⟨?_, hnd.erase h, ?_⟩
      · intro x hx
        exact hdisj x (List.mem_of_mem_erase hx)
      · exact le_trans (List.erase_sublist h w).length_le hlen
    · exact ⟨hdisj, hnd, hlen⟩
  | join h =>
    show MMInv (joinQueue h ⟨w, m, gs, nid⟩).2
    cases hm : afind h m with
    | some gid =>
      simpa [joinQueue, hm] using ⟨hdisj, hnd, hlen⟩
    | none =>
      cases hp : pos1 h w with
      | some p =>
        simpa [joinQueue, hm, hp] using ⟨hdisj, hnd, hlen⟩
      | none =>
        cases w with
        | nil =>
          have hstep : joinQueue h ⟨[], m, gs, nid⟩ =
              (.queued 1, ⟨[h], m, gs, nid⟩) := by
            simp [joinQueue, hm, pos1]
          rw [hstep]
          refine ⟨?_, List.nodup_singleton h, by simp⟩
          intro x hx
          rw [List.mem_singleton] at hx
          rw [hx]
          exact hm
        | cons x t =>
          cases t with
          | nil =>
            have hstep : joinQueue h ⟨[x], m, gs, nid⟩ =
                (.matched nid, ⟨[], (x, nid) :: (h, nid) :: m,
                  (nid, createGame [x, h] none .matchmaking) :: gs, nid + 1⟩) := by
              simp [joinQueue, hm, hp]
            rw [hstep]
            refine ⟨?_, List.nodup_nil, by simp⟩
            intro y hy
            cases hy
          | cons y u => simp at hlen

theorem mmReach_inv {s : MMState} (hs : MMReach s) : MMInv s := by
  induction hs with
  | start => exact mmInv_start
  | step op _ ih => exact mmInv_step op ih

theorem matched_persist_step (op : MMOp) {s : MMState} {A : String} {gid : Nat}
    (hinv : MMInv s) (hA : afind A s.matched = some gid) :
    afind A (mmStep op s).matched = some gid := by
  obtain ⟨w, m, gs, nid⟩ := s
  obtain ⟨hdisj, hnd, hlen⟩ := hinv
  cases op with
  | cancel h =>
    show afind A (cancelQ h ⟨w, m, gs, nid⟩).2.matched = some gid
    rw [cancelQ_matched]
    exact hA
  | join h =>
    show afind A (joinQueue h ⟨w, m, gs, nid⟩).2.matched = some gid
    cases hm : afind h m with
    | some g2 =>
      simp [joinQueue, hm]
      exact hA
    | none =>
      have hhA : ¬ h = A := by
        intro he
        rw [he, hA] at hm
        cases hm
      cases hp : pos1 h w with
      | some p =>
        simp [joinQueue, hm, hp]
        exact hA
      | none =>
        cases w with
        | nil =>
          have hstep : joinQueue h ⟨[], m, gs, nid⟩ =
              (.queued 1, ⟨[h], m, gs, nid⟩) := by
            simp [joinQueue, hm, pos1]
          rw [hstep]
          exact hA
        | cons x t =>
          have hxA : ¬ x = A := by
            intro he
            have hx := hdisj x (List.mem_cons_self x t)
            rw [he, hA] at hx
            cases hx
          cases t with
          | nil =>
            have hstep : joinQueue h ⟨[x], m, gs, nid⟩ =
                (.matched nid, ⟨[], (x, nid) :: (h, nid) :: m,
                  (nid, createGame [x, h] none .matchmaking) :: gs, nid + 1⟩) := by
              simp [joinQueue, hm, hp]
            rw [hstep]
            show afind A ((x, nid) :: (h, nid) :: m) = some gid
            simp [afind, hxA, hhA]
            exact hA
          | cons y u => simp at hlen

theorem mmRun_inv_persist {A : String} {gid : Nat} (ops : List MMOp) {s : MMState}
    (hinv : MMInv s) (hA : afind A s.matched = some gid) :
    MMInv (mmRun ops s) ∧ afind A (mmRun ops s).matched = some gid := by
  induction ops generalizing s with
  | nil => exact ⟨hinv, hA⟩
  | cons op t ih => exact ih (mmInv_step op hinv) (matched_persist_step op hinv hA)

/-! ## Claim theorems for the matchmaking queue -/

/-- Claim C1: once the joinQueue calls of handles A and B have produced a
match (both are recorded in matchedPlayers under the same game id), then
after any further sequence of queue operations a joinQueue of A or of B
returns the matched result with that same game id and leaves the state
untouched; neither handle is in the waiting queue; and no handle is ever
simultaneously in waiting and in matchedPlayers. -/
theorem matchedPairIdempotent (s : MMState) (hs : MMReach s) (A B : String)
    (gid : Nat) (hA : afind A s.matched = some gid)
    (hB : afind B s.matched = some gid) (ops : List MMOp) :
    joinQueue A (mmRun ops s) = (.matched gid, mmRun ops s) ∧
    joinQueue B (mmRun ops s) = (.matched gid, mmRun ops s) ∧
    A ∉ (mmRun ops s).waiting ∧ B ∉ (mmRun ops s).waiting ∧
    ∀ h ∈ (mmRun ops s).waiting, afind h (mmRun ops s).matched = none := by
  have hinv := mmReach_inv hs
  obtain ⟨hinvR, hAp⟩ := mmRun_inv_persist ops hinv hA
  obtain ⟨_, hBp⟩ := mmRun_inv_persist ops hinv hB
  obtain ⟨hdisj, _, _⟩ := hinvR
  refine ⟨joinQueue_of_matched hAp, joinQueue_of_matched hBp, ?_, ?_, hdisj⟩
  · intro hmem
    rw [hdisj A hmem] at hAp
    cases hAp
  · intro hmem
    rw [hdisj B hmem] at hBp
    cases hBp

/-- Witness for C1: A and B are matched to game 0 after joining the empty
queue; after C joins and cancels, both A and B still retrieve game 0. -/
theorem matchedPairIdempotent_witness :
    (afind "A" mmTwo.matched = some 0 ∧ afind "B" mmTwo.matched = some 0) ∧
    (joinQueue "A" (mmRun [MMOp.join "C", MMOp.cancel "C"] mmTwo) =
        (.matched 0, mmRun [MMOp.join "C", MMOp.cancel "C"] mmTwo) ∧
      joinQueue "B" (mmRun [MMOp.join "C", MMOp.cancel "C"] mmTwo) =
        (.matched 0, mmRun [MMOp.join "C", MMOp.cancel "C"] mmTwo) ∧
      "A" ∉ (mmRun [MMOp.join "C", MMOp.cancel "C"] mmTwo).waiting ∧
      "B" ∉ (mmRun [MMOp.join "C", MMOp.cancel "C"] mmTwo).waiting ∧
      ∀ h ∈ (mmRun [MMOp.join "C", MMOp.cancel "C"] mmTwo).waiting,
        afind h (mmRun [MMOp.join "C", MMOp.cancel "C"] mmTwo).matched = none) :=
  ⟨⟨by decide, by decide⟩,
    matchedPairIdempotent mmTwo
      (MMReach.step (MMOp.join "B") (MMReach.step (MMOp.join "A") MMReach.start))
      "A" "B" 0 (by decide) (by decide) [MMOp.join "C", MMOp.cancel "C"]⟩

/-- Claim C3: for a handle recorded in matchedPlayers, cancel is a no-op
returning absent (the pairing stays and a subsequent joinQueue still
returns the stored match); cancel removes the handle exactly when it is in
the waiting queue, returning removed. -/
theorem cancelMatchedNoOp (s : MMState) (hs : MMReach s) (h : String) (gid : Nat) :
    (afind h s.matched = some gid →
      cancelQ h s = (.absent, s) ∧ joinQueue h s = (.matched gid, s)) ∧
    (h ∈ s.waiting →
      (cancelQ h s).1 = .removed ∧
      (cancelQ h s).2 = { s with waiting := s.waiting.erase h }) := by
  obtain ⟨hdisj, _, _⟩ := mmReach_inv hs
  constructor
  · intro hm
    have hnot : h ∉ s.waiting := by
      intro hmem
      rw [hdisj h hmem] at hm
      cases hm
    exact ⟨by simp [cancelQ, hnot], joinQueue_of_matched hm⟩
  · intro hmem
    constructor <;> simp [cancelQ, hmem]

/-- Witness for C3: cancelling matched handle A is a no-op returning absent
and A still retrieves game 0; cancelling A while it waits alone removes it. -/
theorem cancelMatchedNoOp_witness :
    (cancelQ "A" mmTwo = (.absent, mmTwo) ∧
      joinQueue "A" mmTwo = (.matched 0, mmTwo)) ∧
    ((cancelQ "A" mmOne).1 = .removed ∧
      (cancelQ "A" mmOne).2 = { mmOne with waiting := mmOne.waiting.erase "A" }) :=
  ⟨(cancelMatchedNoOp mmTwo
      (MMReach.step (MMOp.join "B") (MMReach.step (MMOp.join "A") MMReach.start))
      "A" 0).1 (by decide),
    (cancelMatchedNoOp mmOne (MMReach.step (MMOp.join "A") MMReach.start)
      "A" 0).2 (by decide)⟩

/-- Counterexample to claim C6 as stated: the claim presumes three handles
A, B, C can be queued in order with no pairing until a fourth arrives, with
the position of C exceeding the initial position of A by 2. The queue pairs
as soon as two handles wait, so at the concrete run from the empty queue B
is matched immediately and C receives position 1 — equal to the initial
position of A, not 2 greater. -/
theorem queuePositionFifo_counterexample :
    (joinQueue "A" mmStart).1 = .queued 1 ∧
    (joinQueue "B" (joinQueue "A" mmStart).2).1 = .matched 0 ∧
    (joinQueue "C" (joinQueue "B" (joinQueue "A" mmStart).2).2).1 = .queued 1 ∧
    (joinQueue "C" (joinQueue "B" (joinQueue "A" mmStart).2).2).1 ≠
      .queued (1 + 2) := by
  refine ⟨by decide, by decide, by decide, by decide⟩

/-- Claim C6 (amended): while a handle remains unmatched and waiting,
joinQueue returns queued with its 1-based index in the waiting sequence,
and the queue is never reordered (the waiting list after a join is a
sublist of the old list extended by the joiner). Because pairing fires as
soon as two handles wait, the waiting list never holds more than one
handle, every queued position is that index, and the queued three-handle
scenario of the original claim cannot arise. -/
theorem queuePositionFifo (s : MMState) (hs : MMReach s) (h : String) :
    s.waiting.length ≤ 1 ∧
    (∀ p, pos1 h s.waiting = some p →
      joinQueue h s = (.queued p, s) ∧ p = 1) ∧
    List.Sublist (joinQueue h s).2.waiting (s.waiting ++ [h]) ∧
    (∀ p, (joinQueue h s).1 = .queued p →
      pos1 h (joinQueue h s).2.waiting = some p) := by
  have hinv := mmReach_inv hs
  clear hs
  obtain ⟨w, m, gs, nid⟩ := s
  obtain ⟨hdisj, hnd, hlen⟩ := hinv
  refine ⟨hlen, ?_, ?_, ?_⟩
  · intro p hp
    have hmem := pos1_mem hp
    have hm : afind h m = none := hdisj h hmem
    refine ⟨by simp [joinQueue, hm, hp], ?_⟩
    cases w with
    | nil => cases hmem
    | cons x t =>
      cases t with
      | nil =>
        have hxh : x = h := List.mem_singleton.mp hmem |>.symm
        rw [hxh] at hp
        simp [pos1] at hp
        omega
      | cons y u => simp at hlen
  · cases hm : afind h m with
    | some gid =>
      have hstep : joinQueue h ⟨w, m, gs, nid⟩ = (.matched gid, ⟨w, m, gs, nid⟩) :=
        joinQueue_of_matched hm
      rw [hstep]
      exact List.sublist_append_left _ _
    | none =>
      cases hp : pos1 h w with
      | some p =>
        have hstep : joinQueue h ⟨w, m, gs, nid⟩ =
            (.queued p, ⟨w, m, gs, nid⟩) := by
          simp [joinQueue, hm, hp]
        rw [hstep]
        exact List.sublist_append_left _ _
      | none =>
        cases w with
        | nil =>
          have hstep : joinQueue h ⟨[], m, gs, nid⟩ =
              (.queued 1, ⟨[h], m, gs, nid⟩) := by
            simp [joinQueue, hm, pos1]
          rw [hstep]
          simp
        | cons x t =>
          cases t with
          | nil =>
            have hstep : joinQueue h ⟨[x], m, gs, nid⟩ =
                (.matched nid, ⟨[], (x, nid) :: (h, nid) :: m,
                  (nid, createGame [x, h] none .matchmaking) :: gs, nid + 1⟩) := by
              simp [joinQueue, hm, hp]
            rw [hstep]
            exact List.nil_sublist _
          | cons y u => simp at hlen
  · intro p hq
    cases hm : afind h m with
    | some gid =>
      rw [joinQueue_of_matched hm] at hq
      cases hq
    | none =>
      cases hp : pos1 h w with
      | some q =>
        have hstep : joinQueue h ⟨w, m, gs, nid⟩ =
            (.queued q, ⟨w, m, gs, nid⟩) := by
          simp [joinQueue, hm, hp]
        rw [hstep] at hq ⊢
        cases hq
        exact hp
      | none =>
        cases w with
        | nil =>
          have hstep : joinQueue h ⟨[], m, gs, nid⟩ =
              (.queued 1, ⟨[h], m, gs, nid⟩) := by
            simp [joinQueue, hm, pos1]
          rw [hstep] at hq ⊢
          cases hq
          simp [pos1]
        | cons x t =>
          cases t with
          | nil =>
            have hstep : joinQueue h ⟨[x], m, gs, nid⟩ =
                (.matched nid, ⟨[], (x, nid) :: (h, nid) :: m,
                  (nid, createGame [x, h] none .matchmaking) :: gs, nid + 1⟩) := by
              simp [joinQueue, hm, hp]
            rw [hstep] at hq
            cases hq
          | cons y u => simp at hlen

/-- Witness for C6 (amended): with A waiting alone, its queued position is
1, re-joining leaves the state untouched, and the waiting list stays a
sublist of the old list extended by the joiner. -/
theorem queuePositionFifo_witness :
    mmOne.waiting.length ≤ 1 ∧
    joinQueue "A" mmOne = (.queued 1, mmOne) ∧
    List.Sublist (joinQueue "A" mmOne).2.waiting (mmOne.waiting ++ ["A"]) := by
  have h := queuePositionFifo mmOne (MMReach.step (MMOp.join "A") MMReach.start) "A"
  exact ⟨h.1, (h.2.1 1 (by decide)).1, h.2.2.1⟩

/-! ## Lobby invariant lemmas -/

theorem lobInv_start : LobInv lobStart := by
  intro lid lb hfind
  simp [lobStart, nfind] at hfind

theorem lobInv_step (op : LOp) {s : LobStore} (hs : LobInv s) :
    LobInv (lobStep op s).2 := by
  cases op with
  | create host =>
    show LobInv (createLobby host s).2
    cases hn : normName host with
    | none => simpa [createLobby, hn] using hs
    | some h2 =>
      intro lid lb hfind
      have hred : (createLobby host s).2 =
          { s with
            lobbies := (s.nextLobbyId,
              ⟨h2, [h2], [(h2, false)], .waiting⟩) :: s.lobbies
            nextLobbyId := s.nextLobbyId + 1 } := by
        simp [createLobby, hn]
      rw [hred] at hfind
      simp only [nfind] at hfind
      split at hfind
      · cases hfind
        simp
      · exact hs lid lb hfind
  | join lid h =>
    show LobInv (joinLobby lid h s).2
    cases hn : normName h with
    | none => simpa [joinLobby, hn] using hs
    | some h2 =>
      cases hf : nfind lid s.lobbies with
      | none => simpa [joinLobby, hn, hf] using hs
      | some lb =>
        by_cases hc : lb.players.length = 2 ∨ lb.status = .started
        · simpa [joinLobby, hn, hf, hc] using hs
        · intro lid2 lb2 hfind
          have hred : (joinLobby lid h s).2 =
              { s with
                lobbies := nset lid
                  { lb with
                    players := lb.players ++ [h2]
                    readyState := aset h2 false lb.readyState
                    status := .full } s.lobbies } := by
            simp [joinLobby, hn, hf, hc]
          rw [hred] at hfind
          by_cases hl : lid2 = lid
          · subst hl
            rw [nfind_nset_self] at hfind
            cases hfind
            have hb := hs lid2 lb hf
            have hne : lb.players.length ≠ 2 := fun he => hc (Or.inl he)
            show (lb.players ++ [h2]).length ≤ 2
            rw [List.length_append]
            simp only [List.length_singleton]
            omega
          · rw [nfind_nset_ne _ _ hl] at hfind
            exact hs lid2 lb2 hfind
  | leave lid h =>
    show LobInv (leaveLobby lid h s).2
    cases hn : normName h with
    | none => simpa [leaveLobby, hn] using hs
    | some h2 =>
      cases hf : nfind lid s.lobbies with
      | none => simpa [leaveLobby, hn, hf] using hs
      | some lb =>
        by_cases hst : lb.status = .started
        · simpa [leaveLobby, hn, hf, hst] using hs
        · by_cases hh : h2 = lb.host
          · intro lid2 lb2 hfind
            have hred : (leaveLobby lid h s).2 =
                { s with lobbies := ndel lid s.lobbies } := by
              simp [leaveLobby, hn, hf, hst, hh]
            rw [hred] at hfind
            rw [nfind_ndel] at hfind
            split at hfind
            · cases hfind
            · exact hs lid2 lb2 hfind
          · by_cases hmem : h2 ∈ lb.players
            · intro lid2 lb2 hfind
              have hred : (leaveLobby lid h s).2 =
                  { s with
                    lobbies := nset lid
                      { lb with
                        players := lb.players.erase h2
                        readyState := lb.readyState.filter (fun e => e.1 ≠ h2)
                        status := .waiting } s.lobbies } := by
                simp [leaveLobby, hn, hf, hst, hh, hmem]
              rw [hred] at hfind
              by_cases hl : lid2 = lid
              · subst hl
                rw [nfind_nset_self] at hfind
                cases hfind
                show (lb.players.erase h2).length ≤ 2
                exact le_trans (List.erase_sublist h2 lb.players).length_le
                  (hs lid2 lb hf)
              · rw [nfind_nset_ne _ _ hl] at hfind
                exact hs lid2 lb2 hfind
            · simpa [leaveLobby, hn, hf, hst, hh, hmem] using hs
  | toggle lid h =>
    show LobInv (toggleReady lid h s).2
    cases hn : normName h with
    | none => simpa [toggleReady, hn] using hs
    | some h2 =>
      cases hf : nfind lid s.lobbies with
      | none => simpa [toggleReady, hn, hf] using hs
      | some lb =>
        by_cases hst : lb.status = .started
        · simpa [toggleReady, hn, hf, hst] using hs
        · cases hr : afind h2 lb.readyState with
          | none => simpa [toggleReady, hn, hf, hst, hr] using hs
          | some b =>
            intro lid2 lb2 hfind
            have hred : (toggleReady lid h s).2 =
                { s with
                  lobbies := nset lid
                    { lb with readyState := aset h2 (!b) lb.readyState }
                    s.lobbies } := by
              simp [toggleReady, hn, hf, hst, hr]
            rw [hred] at hfind
            by_cases hl : lid2 = lid
            · subst hl
              rw [nfind_nset_self] at hfind
              cases hfind
              exact hs lid2 lb hf
            · rw [nfind_nset_ne _ _ hl] at hfind
              exact hs lid2 lb2 hfind
  | start lid caller target =>
    show LobInv (startLobby lid caller target s).2
    cases hn : normName caller with
    | none => simpa [startLobby, hn] using hs
    | some h2 =>
      cases hf : nfind lid s.lobbies with
      | none => simpa [startLobby, hn, hf] using hs
      | some lb =>
        by_cases hc : h2 = lb.host ∧ lb.players.length = 2 ∧
            (lb.readyState.all fun e => e.2) = true ∧ ¬lb.status = LobbyStatus.started
        · intro lid2 lb2 hfind
          have hred : (startLobby lid caller target s).2 =
              { s with
                lobbies := nset lid { lb with status := .started } s.lobbies
                games := (s.nextGameId,
                  createGame lb.players target .lobby) :: s.games
                nextGameId := s.nextGameId + 1 } := by
            unfold startLobby
            simp only [hn, hf]
            rw [if_pos hc]
          rw [hred] at hfind
          by_cases hl : lid2 = lid
          · subst hl
            rw [nfind_nset_self] at hfind
            cases hfind
            exact hs lid2 lb hf
          · rw [nfind_nset_ne _ _ hl] at hfind
            exact hs lid2 lb2 hfind
        · have hred : (startLobby lid caller target s).2 = s := by
            unfold startLobby
            simp only [hn, hf]
            rw [if_neg hc]
          rw [hred]
          exact hs

theorem lobReach_inv {s : LobStore} (hs : LobReach s) : LobInv s := by
  induction hs with
  | start => exact lobInv_start
  | step op _ ih => exact lobInv_step op ih

/-! ## Claim theorems for the lobby supervisor -/

/-- Claim C4: joining a lobby that already has 2 players or is started
fails with ConflictError and leaves the whole store (hence the lobby)
unchanged; and no sequence of lobby operations ever produces a lobby whose
players list is longer than 2. -/
theorem lobbyCapacity (s : LobStore) (hs : LobReach s) (lid : Nat) (h : String)
    (lb : Lobby) (hlb : nfind lid s.lobbies = some lb) :
    ((lb.players.length = 2 ∨ lb.status = .started) → (normName h).isSome →
      lobStep (.join lid h) s = (.err .conflict, s)) ∧
    lb.players.length ≤ 2 := by
  refine ⟨?_, lobReach_inv hs lid lb hlb⟩
  intro hc hnorm
  rcases hn : normName h with _ | h2
  · rw [hn] at hnorm
    simp at hnorm
  · show joinLobby lid h s = (.err .conflict, s)
    simp only [joinLobby, hn, hlb]
    rw [if_pos hc]

/-- Witness for C4: joining the full Ann/Bob lobby as Cid fails with
ConflictError and leaves the store unchanged. -/
theorem lobbyCapacity_witness :
    nfind 0 lsTwo.lobbies = some lsTwoLobby ∧
    lsTwoLobby.players.length = 2 ∧
    lobStep (.join 0 "Cid") lsTwo = (.err .conflict, lsTwo) ∧
    lsTwoLobby.players.length ≤ 2 := by
  have h := lobbyCapacity lsTwo
    (LobReach.step (LOp.join 0 "Bob") (LobReach.step (LOp.create "Ann") LobReach.start))
    0 "Cid" lsTwoLobby (by decide)
  exact ⟨by decide, by decide, h.1 (by decide) (by decide), h.2⟩

/-- Claim C7: a successful toggleReady flips exactly the ready entry of the
toggled handle — the lookup at that handle is negated, every other lookup
is untouched — and the resulting store differs only in that lobby, whose
host, players and status are verbatim those of the old lobby. -/
theorem toggleReadyFrame (s : LobStore) (lid : Nat) (h : String)
    (hok : (lobStep (.toggle lid h) s).1 = .ok) :
    ∃ h2 lb b, normName h = some h2 ∧ nfind lid s.lobbies = some lb ∧
      lb.status ≠ .started ∧ afind h2 lb.readyState = some b ∧
      (lobStep (.toggle lid h) s).2 =
        { s with
          lobbies := nset lid
            { host := lb.host
              players := lb.players
              readyState := aset h2 (!b) lb.readyState
              status := lb.status } s.lobbies } ∧
      afind h2 (aset h2 (!b) lb.readyState) = some (!b) ∧
      ∀ k, k ≠ h2 → afind k (aset h2 (!b) lb.readyState) = afind k lb.readyState := by
  cases hn : normName h with
  | none => simp [lobStep, toggleReady, hn] at hok
  | some h2 =>
    cases hf : nfind lid s.lobbies with
    | none => simp [lobStep, toggleReady, hn, hf] at hok
    | some lb =>
      by_cases hst : lb.status = .started
      · simp [lobStep, toggleReady, hn, hf, hst] at hok
      · cases hr : afind h2 lb.readyState with
        | none => simp [lobStep, toggleReady, hn, hf, hst, hr] at hok
        | some b =>
          refine ⟨h2, lb, b, rfl, rfl, hst, hr, ?_, afind_aset_self _ _ _, ?_⟩
          · simp [lobStep, toggleReady, hn, hf, hst, hr]
          · intro k hk
            exact afind_aset_ne _ _ hk

/-- Witness for C7: toggling Ann in the full Ann/Bob lobby flips only the
ready entry of Ann. -/
theorem toggleReadyFrame_witness :
    ∃ h2 lb b, normName "Ann" = some h2 ∧ nfind 0 lsTwo.lobbies = some lb ∧
      lb.status ≠ .started ∧ afind h2 lb.readyState = some b ∧
      (lobStep (.toggle 0 "Ann") lsTwo).2 =
        { lsTwo with
          lobbies := nset 0
            { host := lb.host
              players := lb.players
              readyState := aset h2 (!b) lb.readyState
              status := lb.status } lsTwo.lobbies } ∧
      afind h2 (aset h2 (!b) lb.readyState) = some (!b) ∧
      ∀ k, k ≠ h2 → afind k (aset h2 (!b) lb.readyState) = afind k lb.readyState :=
  toggleReadyFrame lsTwo 0 "Ann" (by decide)

/-- Claim C8: whenever a lobby operation fails with ConflictError, the
store is exactly as it was before the call — the error commits no partial
mutation. -/
theorem conflictAtomic (op : LOp) (s : LobStore)
    (hc : (lobStep op s).1 = .err .conflict) : (lobStep op s).2 = s := by
  cases op with
  | create host =>
    cases hn : normName host with
    | none => simp [lobStep, createLobby, hn]
    | some h2 => simp [lobStep, createLobby, hn] at hc
  | join lid h =>
    cases hn : normName h with
    | none => simp [lobStep, joinLobby, hn]
    | some h2 =>
      cases hf : nfind lid s.lobbies with
      | none => simp [lobStep, joinLobby, hn, hf]
      | some lb =>
        by_cases hg : lb.players.length = 2 ∨ lb.status = .started
        · simp [lobStep, joinLobby, hn, hf, hg]
        · simp [lobStep, joinLobby, hn, hf, hg] at hc
  | leave lid h =>
    cases hn : normName h with
    | none => simp [lobStep, leaveLobby, hn]
    | some h2 =>
      cases hf : nfind lid s.lobbies with
      | none => simp [lobStep, leaveLobby, hn, hf]
      | some lb =>
        by_cases hst : lb.status = .started
        · simp [lobStep, leaveLobby, hn, hf, hst]
        · by_cases hh : h2 = lb.host
          · simp [lobStep, leaveLobby, hn, hf, hst, hh] at hc
          · by_cases hmem : h2 ∈ lb.players
            · simp [lobStep, leaveLobby, hn, hf, hst, hh, hmem] at hc
            · simp [lobStep, leaveLobby, hn, hf, hst, hh, hmem]
  | toggle lid h =>
    cases hn : normName h with
    | none => simp [lobStep, toggleReady, hn]
    | some h2 =>
      cases hf : nfind lid s.lobbies with
      | none => simp [lobStep, toggleReady, hn, hf]
      | some lb =>
        by_cases hst : lb.status = .started
        · simp [lobStep, toggleReady, hn, hf, hst]
        · cases hr : afind h2 lb.readyState with
          | none => simp [lobStep, toggleReady, hn, hf, hst, hr]
          | some b => simp [lobStep, toggleReady, hn, hf, hst, hr] at hc
  | start lid caller target =>
    cases hn : normName caller with
    | none => simp [lobStep, startLobby, hn]
    | some h2 =>
      cases hf : nfind lid s.lobbies with
      | none => simp [lobStep, startLobby, hn, hf]
      | some lb =>
        by_cases hg : h2 = lb.host ∧ lb.players.length = 2 ∧
            (lb.readyState.all fun e => e.2) = true ∧ ¬lb.status = LobbyStatus.started
        · exfalso
          have hred : lobStep (.start lid caller target) s =
              (.startedGame s.nextGameId,
                { s with
                  lobbies := nset lid { lb with status := .started } s.lobbies
                  games := (s.nextGameId,
                    createGame lb.players target .lobby) :: s.games
                  nextGameId := s.nextGameId + 1 }) := by
            show startLobby lid caller target s = _
            unfold startLobby
            simp only [hn, hf]
            rw [if_pos hg]
          rw [hred] at hc
          cases hc
        · show (startLobby lid caller target s).2 = s
          unfold startLobby
          simp only [hn, hf]
          rw [if_neg hg]

/-- Witness for C8: the non-host Bob attempting to start the Ann/Bob lobby
receives ConflictError and the store is untouched. -/
theorem conflictAtomic_witness :
    (lobStep (.start 0 "Bob" none) lsTwo).1 = .err .conflict ∧
    (lobStep (.start 0 "Bob" none) lsTwo).2 = lsTwo :=
  ⟨by decide, conflictAtomic (.start 0 "Bob" none) lsTwo (by decide)⟩

/-! ## Game pipeline invariant lemmas -/

theorem gInv_start : GSInv gStart := by
  intro gid g hfind
  simp [gStart, nfind] at hfind

theorem gameOk_judge (scoreFn : Artifact → Option String → ℚ)
    (a b : String) (hab : a ≠ b) (g : Game) (hpl : g.players = [a, b])
    (hsc : g.scores = []) {artA artB : Artifact}
    (hA : afind a g.artifacts = some artA)
    (hB : afind b g.artifacts = some artB) :
    GameOk (judgeGame scoreFn a b g) := by
  unfold judgeGame
  rw [hA, hB]
  refine ⟨a, b, hpl, hab, Or.inl ⟨rfl, scoreFn artA g.assignedTarget,
    scoreFn artB g.assignedTarget, ?_, ?_, rfl⟩⟩
  · show afind a (aset b _ (aset a _ g.scores)) = _
    rw [hsc]
    simp [aset, afind, hab, Ne.symm hab]
  · show afind b (aset b _ (aset a _ g.scores)) = _
    rw [hsc]
    simp [aset, afind, hab, Ne.symm hab]

theorem gameOk_record (gen : String → Artifact)
    (scoreFn : Artifact → Option String → ℚ) (h p : String) {g : Game}
    (hg : GameOk g) : GameOk (recordAndMaybeJudge gen scoreFn h p g) := by
  obtain ⟨a, b, hpl, hab, hrest⟩ := hg
  obtain ⟨pl, tgt, pr, ar, sc, wn, st, src⟩ := g
  have hpl2 : pl = [a, b] := hpl
  subst hpl2
  have hred : recordAndMaybeJudge gen scoreFn h p
        ⟨[a, b], tgt, pr, ar, sc, wn, st, src⟩ =
      (if st ≠ .completed ∧ (afind a (aset h (gen p) ar)).isSome ∧
          (afind b (aset h (gen p) ar)).isSome then
        judgeGame scoreFn a b
          ⟨[a, b], tgt, aset h (((afind h pr).getD []) ++ [p]) pr,
            aset h (gen p) ar, sc, wn, st, src⟩
      else
        ⟨[a, b], tgt, aset h (((afind h pr).getD []) ++ [p]) pr,
          aset h (gen p) ar, sc, wn, st, src⟩) := rfl
  rw [hred]
  by_cases hst : st = GameStatus.completed
  · rw [if_neg (fun hc => hc.1 hst)]
    rcases hrest with ⟨hcomp, x, y, hxa, hyb, hw⟩ | ⟨hncomp, _, _⟩
    · exact ⟨a, b, rfl, hab, Or.inl ⟨hcomp, x, y, hxa, hyb, hw⟩⟩
    · exact absurd hst hncomp
  · rcases hrest with ⟨hcomp, _⟩ | ⟨_, hwn, hsc⟩
    · exact absurd hcomp hst
    · by_cases hart : ((afind a (aset h (gen p) ar)).isSome : Prop) ∧
          ((afind b (aset h (gen p) ar)).isSome : Prop)
      · rw [if_pos ⟨hst, hart.1, hart.2⟩]
        obtain ⟨hartA, hartB⟩ := hart
        rcases hA : afind a (aset h (gen p) ar) with _ | artA
        · rw [hA] at hartA
          cases hartA
        · rcases hB : afind b (aset h (gen p) ar) with _ | artB
          · rw [hB] at hartB
            cases hartB
          · exact gameOk_judge scoreFn a b hab _ rfl hsc hA hB
      · rw [if_neg (fun hc => hart ⟨hc.2.1, hc.2.2⟩)]
        exact ⟨a, b, rfl, hab, Or.inr ⟨hst, hwn, hsc⟩⟩

theorem gInv_step (gen : String → Artifact)
    (scoreFn : Artifact → Option String → ℚ) (op : GOp) {s : GStore}
    (hs : GSInv s) : GSInv (gStep gen scoreFn op s).2 := by
  cases op with
  | create players target src =>
    show GSInv (gCreate players target src s).2
    cases hm : players.mapM normName with
    | none =>
      have hred : (gCreate players target src s).2 = s := by
        unfold gCreate
        rw [hm]
      rw [hred]
      exact hs
    | some ps =>
      by_cases hv : ps.length = 2 ∧ ps.Nodup
      · intro gid g hfind
        have hred : (gCreate players target src s).2 =
            { games := (s.nextGameId, createGame ps target src) :: s.games
              nextGameId := s.nextGameId + 1 } := by
          unfold gCreate
          simp only [hm]
          rw [if_pos hv]
        rw [hred] at hfind
        simp only [nfind] at hfind
        split at hfind
        · cases hfind
          obtain ⟨hlen, hnd⟩ := hv
          match ps, hlen with
          | [a, b], _ =>
            have hab : a ≠ b := by
              rw [List.nodup_cons] at hnd
              intro he
              exact hnd.1 (by rw [he]; exact List.mem_singleton.mpr rfl)
            exact ⟨a, b, rfl, hab, Or.inr ⟨by simp [createGame], rfl, rfl⟩⟩
        · exact hs gid g hfind
      · have hred : (gCreate players target src s).2 = s := by
          unfold gCreate
          simp only [hm]
          rw [if_neg hv]
        rw [hred]
        exact hs
  | submit gid h p =>
    show GSInv (submitPrompt gen scoreFn gid h p s).2
    by_cases hval : p = "" ∨ 1000 < p.length
    · have hred : (submitPrompt gen scoreFn gid h p s).2 = s := by
        unfold submitPrompt
        rw [if_pos hval]
      rw [hred]
      exact hs
    · cases hn : normName h with
      | none =>
        have hred : (submitPrompt gen scoreFn gid h p s).2 = s := by
          unfold submitPrompt
          rw [if_neg hval]
          simp only [hn]
        rw [hred]
        exact hs
      | some h2 =>
        cases hf : nfind gid s.games with
        | none =>
          have hred : (submitPrompt gen scoreFn gid h p s).2 = s := by
            unfold submitPrompt
            rw [if_neg hval]
            simp only [hn, hf]
          rw [hred]
          exact hs
        | some g =>
          by_cases hmem : h2 ∈ g.players
          · intro gid2 gg hfind
            have hred : (submitPrompt gen scoreFn gid h p s).2 =
                { s with
                  games := nset gid
                    (recordAndMaybeJudge gen scoreFn h2 p g) s.games } := by
              unfold submitPrompt
              rw [if_neg hval]
              simp only [hn, hf]
              rw [if_pos hmem]
            rw [hred] at hfind
            by_cases hl : gid2 = gid
            · subst hl
              rw [nfind_nset_self] at hfind
              cases hfind
              exact gameOk_record gen scoreFn h2 p (hs gid2 g hf)
            · rw [nfind_nset_ne _ _ hl] at hfind
              exact hs gid2 gg hfind
          · have hred : (submitPrompt gen scoreFn gid h p s).2 = s := by
              unfold submitPrompt
              rw [if_neg hval]
              simp only [hn, hf]
              rw [if_neg hmem]
            rw [hred]
            exact hs

theorem gReach_inv {gen : String → Artifact}
    {scoreFn : Artifact → Option String → ℚ} {s : GStore}
    (hs : GReach gen scoreFn s) : GSInv s := by
  induction hs with
  | start => exact gInv_start
  | step op _ ih => exact gInv_step _ _ op ih

theorem recordAndMaybeJudge_completed (gen : String → Artifact)
    (scoreFn : Artifact → Option String → ℚ) (h p : String) {g : Game}
    (hst : g.status = .completed) :
    recordAndMaybeJudge gen scoreFn h p g =
      { g with
        prompts := aset h (((afind h g.prompts).getD []) ++ [p]) g.prompts
        artifacts := aset h (gen p) g.artifacts } := by
  obtain ⟨pl, tgt, pr, ar, sc, wn, st, src⟩ := g
  rcases pl with _ | ⟨x, pl2⟩
  · rfl
  · rcases pl2 with _ | ⟨y, pl3⟩
    · rfl
    · rcases pl3 with _ | ⟨z, pl4⟩
      · have hred : recordAndMaybeJudge gen scoreFn h p
              ⟨[x, y], tgt, pr, ar, sc, wn, st, src⟩ =
            (if st ≠ .completed ∧ (afind x (aset h (gen p) ar)).isSome ∧
                (afind y (aset h (gen p) ar)).isSome then
              judgeGame scoreFn x y
                ⟨[x, y], tgt, aset h (((afind h pr).getD []) ++ [p]) pr,
                  aset h (gen p) ar, sc, wn, st, src⟩
            else
              ⟨[x, y], tgt, aset h (((afind h pr).getD []) ++ [p]) pr,
                aset h (gen p) ar, sc, wn, st, src⟩) := rfl
        rw [hred, if_neg (fun hc => hc.1 hst)]
      · rfl

/-! ## Claim theorems for the game pipeline -/

/-- Counterexample to claim C2 as stated: the claim asserts that the winner
is non-none whenever the status is completed and both score entries exist.
In the concrete Nova/Echo run under a scorer that ties at 80, the game
completes with both scores present and winner none, refuting that
biconditional (exactly the tie behavior the spec itself mandates). -/
theorem winnerConsistency_counterexample :
    tieGame.status = .completed ∧
    afind "Nova" tieGame.scores = some 80 ∧
    afind "Echo" tieGame.scores = some 80 ∧
    tieGame.winner = none := by
  refine ⟨by decide, by decide, by decide, by decide⟩

/-- Claim C2 (amended): for every Game produced by the automatic pipeline,
the winner is non-none exactly when the status is completed, both score
entries exist, and the two scores differ; whenever the winner is set, its
score strictly exceeds the score of the other player; and a completed game
with equal scores has winner none. -/
theorem winnerConsistency (gen : String → Artifact)
    (scoreFn : Artifact → Option String → ℚ) (s : GStore)
    (hs : GReach gen scoreFn s) (gid : Nat) (g : Game)
    (hg : nfind gid s.games = some g) :
    (g.winner ≠ none ↔ g.status = .completed ∧ ∃ a b x y, g.players = [a, b] ∧
      afind a g.scores = some x ∧ afind b g.scores = some y ∧ x ≠ y) ∧
    (∀ w, g.winner = some w → ∃ o x y, w ∈ g.players ∧ o ∈ g.players ∧ w ≠ o ∧
      afind w g.scores = some x ∧ afind o g.scores = some y ∧ y < x) ∧
    (∀ a b x y, g.status = .completed → g.players = [a, b] →
      afind a g.scores = some x → afind b g.scores = some y → x = y →
      g.winner = none) := by
  obtain ⟨a, b, hpl, hab, hrest⟩ := gReach_inv hs gid g hg
  rcases hrest with ⟨hcomp, x, y, hxa, hyb, hw⟩ | ⟨hncomp, hwn, hsc⟩
  · refine ⟨⟨?_, ?_⟩, ?_, ?_⟩
    · intro hne
      refine ⟨hcomp, a, b, x, y, hpl, hxa, hyb, ?_⟩
      intro hxy
      rw [hxy] at hw
      simp at hw
      exact hne hw
    · rintro ⟨_, a2, b2, x2, y2, hpl2, hxa2, hyb2, hne2⟩
      rw [hpl] at hpl2
      injection hpl2 with h1 h2t
      injection h2t with h2 _
      subst h1
      subst h2
      rw [hxa] at hxa2
      injection hxa2 with hx2
      rw [hyb] at hyb2
      injection hyb2 with hy2
      subst hx2
      subst hy2
      rw [hw]
      by_cases hlt : y < x
      · simp [hlt]
      · have hlt2 : x < y := lt_of_le_of_ne (not_lt.mp hlt) hne2
        simp [hlt, hlt2, not_lt_of_gt hlt2]
    · intro w hwsome
      rw [hw] at hwsome
      by_cases h1 : y < x
      · rw [if_pos h1] at hwsome
        injection hwsome with hwa
        subst hwa
        exact ⟨b, x, y, by rw [hpl]; simp, by rw [hpl]; simp, hab, hxa, hyb, h1⟩
      · rw [if_neg h1] at hwsome
        by_cases h2 : x < y
        · rw [if_pos h2] at hwsome
          injection hwsome with hwb
          subst hwb
          exact ⟨a, y, x, by rw [hpl]; simp, by rw [hpl]; simp, Ne.symm hab,
            hyb, hxa, h2⟩
        · rw [if_neg h2] at hwsome
          cases hwsome
    · intro a2 b2 x2 y2 _ hpl2 hxa2 hyb2 hxy
      rw [hpl] at hpl2
      injection hpl2 with h1 h2t
      injection h2t with h2 _
      subst h1
      subst h2
      rw [hxa] at hxa2
      injection hxa2 with hx2
      rw [hyb] at hyb2
      injection hyb2 with hy2
      subst hx2
      subst hy2
      rw [hw, hxy]
      simp
  · refine ⟨⟨?_, ?_⟩, ?_, ?_⟩
    · intro hne
      exact absurd hwn hne
    · rintro ⟨hcomp2, _⟩
      exact absurd hcomp2 hncomp
    · intro w hwsome
      rw [hwn] at hwsome
      cases hwsome
    · intro a2 b2 x2 y2 hcomp2 _ _ _ _
      exact absurd hcomp2 hncomp

/-- Witness for C2 (amended): in the Nova/Echo run under the length scorer
the game completes with scores 9 and 5, and the amended biconditional holds
with winner Nova. -/
theorem winnerConsistency_witness :
    nfind 0 winStore.games = some winGame ∧
    winGame.winner = some "Nova" ∧
    (winGame.winner ≠ none ↔ winGame.status = .completed ∧ ∃ a b x y,
      winGame.players = [a, b] ∧ afind a winGame.scores = some x ∧
      afind b winGame.scores = some y ∧ x ≠ y) := by
  have h := winnerConsistency gen0 scoreLen winStore
    (GReach.step (.submit 0 "Echo" "login")
      (GReach.step (.submit 0 "Nova" "dashboard")
        (GReach.step (.create ["Nova", "Echo"] none .matchmaking) GReach.start)))
    0 winGame (by decide)
  exact ⟨by decide, by decide, h.1⟩

/-- Claim C5: submitting a prompt for a game whose status is already
completed keeps the status completed, appends the prompt to that player's
sequence, generates and stores a new artifact for that player, and leaves
the scores and the winner untouched (no automatic re-scoring). -/
theorem modificationRound (gen : String → Artifact)
    (scoreFn : Artifact → Option String → ℚ) (s : GStore) (gid : Nat)
    (g : Game) (h h2 p : String) (hg : nfind gid s.games = some g)
    (hst : g.status = .completed) (hn : normName h = some h2)
    (hmem : h2 ∈ g.players) (hp : ¬(p = "" ∨ 1000 < p.length)) :
    (submitPrompt gen scoreFn gid h p s).1 = .ok ∧
    ∃ g2, nfind gid (submitPrompt gen scoreFn gid h p s).2.games = some g2 ∧
      g2.status = .completed ∧
      g2.prompts = aset h2 (((afind h2 g.prompts).getD []) ++ [p]) g.prompts ∧
      g2.artifacts = aset h2 (gen p) g.artifacts ∧
      g2.scores = g.scores ∧
      g2.winner = g.winner := by
  have hred : submitPrompt gen scoreFn gid h p s =
      (.ok, { s with
        games := nset gid (recordAndMaybeJudge gen scoreFn h2 p g) s.games }) := by
    unfold submitPrompt
    rw [if_neg hp]
    simp only [hn, hg]
    rw [if_pos hmem]
  rw [recordAndMaybeJudge_completed gen scoreFn h2 p hst] at hred
  refine ⟨by rw [hred], ?_⟩
  refine ⟨{ g with
      prompts := aset h2 (((afind h2 g.prompts).getD []) ++ [p]) g.prompts
      artifacts := aset h2 (gen p) g.artifacts },
    ?_, hst, rfl, rfl, rfl, rfl⟩
  rw [hred]
  exact nfind_nset_self _ _ _

/-- Witness for C5: Nova submits a further prompt on the completed tied
game; the game stays completed, the prompt is appended, a fresh artifact is
stored, and the scores and the missing winner are untouched. -/
theorem modificationRound_witness :
    (submitPrompt gen0 score80 0 "Nova" "again" tieStore).1 = .ok ∧
    ∃ g2, nfind 0 (submitPrompt gen0 score80 0 "Nova" "again" tieStore).2.games =
        some g2 ∧
      g2.status = .completed ∧
      g2.prompts =
        aset "Nova" (((afind "Nova" tieGame.prompts).getD []) ++ ["again"])
          tieGame.prompts ∧
      g2.artifacts = aset "Nova" (gen0 "again") tieGame.artifacts ∧
      g2.scores = tieGame.scores ∧
      g2.winner = tieGame.winner :=
  modificationRound gen0 score80 tieStore 0 tieGame "Nova" "Nova" "again"
    (by decide) (by decide) (by decide) (by decide) (by decide)

/-! ## Prompt card lemmas -/

theorem tickRun_stuck (pr : CardProps) (n : Nat) (s : CardState)
    (hsub : s.isSubmitted = true) : (tickRun pr n s).2 = [] := by
  induction n generalizing s with
  | zero => rfl
  | succ m ih =>
    have htick : tick pr s = ({ s with timeLeft := s.timeLeft - 1 }, none) := by
      unfold tick
      rw [if_neg]
      intro hcond
      have hfalse := hcond.2.1
      rw [hsub] at hfalse
      cases hfalse
    show (tickRun pr (m + 1) s).2 = []
    unfold tickRun
    rw [htick]
    exact ih { s with timeLeft := s.timeLeft - 1 } hsub

theorem tickRun_succ (pr : CardProps) (k : Nat) (s : CardState) :
    (tickRun pr (k + 1) s).2 =
      (tick pr s).2.toList ++ (tickRun pr k (tick pr s).1).2 := by
  rcases h : tick pr s with ⟨s1, e⟩
  rcases h2 : tickRun pr k s1 with ⟨s2, es⟩
  have hL : tickRun pr (k + 1) s = (s2, e.toList ++ es) := by
    simp only [tickRun]
    rw [h]
    dsimp only
    rw [h2]
  rw [hL]

theorem tickRun_emits (pr : CardProps) (hon : pr.hasOnSubmit = true)
    (hnone : pr.submittedPrompts = []) :
    ∀ n m p0, 0 < m →
      (tickRun pr n ⟨m, p0, false⟩).2 = if m ≤ n then [(true, p0)] else [] := by
  intro n
  induction n with
  | zero =>
    intro m p0 hm
    rw [if_neg (by omega)]
    rfl
  | succ k ih =>
    intro m p0 hm
    by_cases hm1 : m = 1
    · subst hm1
      have htick : tick pr ⟨1, p0, false⟩ = (⟨0, p0, true⟩, some (true, p0)) := by
        unfold tick
        rw [if_pos ⟨rfl, rfl, hon, by rw [hnone]; rfl⟩]
        rfl
      rw [tickRun_succ, htick]
      dsimp only
      rw [tickRun_stuck pr k ⟨0, p0, true⟩ rfl, if_pos (by omega)]
      rfl
    · have htick : tick pr ⟨m, p0, false⟩ = (⟨m - 1, p0, false⟩, none) := by
        unfold tick
        rw [if_neg]
        intro hcond
        have h0 := hcond.1
        simp only at h0
        omega
      rw [tickRun_succ, htick]
      dsimp only
      rw [ih (m - 1) p0 (by omega)]
      by_cases hle : m ≤ k + 1
      · rw [if_pos (by omega), if_pos hle]
        rfl
      · rw [if_neg (by omega), if_neg hle]
        rfl

/-! ## Claim theorems for the prompt card and the rating update -/

/-- Claim C9: in the prompt card, the manual submit path invokes onSubmit
only when the trimmed prompt text is non-empty (and the submit button is
disabled for empty or whitespace-only text), while the timer expiry — when
onSubmit is provided, nothing was submitted and no prompt was recorded —
invokes onSubmit(true, promptText) with no emptiness check, exactly once
over any run of the 30-second countdown, so at expiry with the empty
textarea onSubmit is called with the empty string. -/
theorem promptCardSubmission (pr : CardProps) (s : CardState)
    (hon : pr.hasOnSubmit = true) (hnone : pr.submittedPrompts = []) :
    (∀ b t, (handleSubmit pr s).2 = some (b, t) →
      strTrim s.promptText ≠ "" ∧ b = true ∧ t = s.promptText) ∧
    (strTrim s.promptText = "" → submitEnabled s = false) ∧
    (s.timeLeft = 1 → s.isSubmitted = false →
      tick pr s =
        ({ s with timeLeft := 0, isSubmitted := true }, some (true, s.promptText))) ∧
    (∀ p0 n, (tickRun pr n (cardStart p0)).2 =
      if 30 ≤ n then [(true, p0)] else []) ∧
    (tickRun pr 30 (cardStart "")).2 = [(true, "")] := by
  refine ⟨?_, ?_, ?_, ?_, ?_⟩
  · intro b t hemit
    unfold handleSubmit at hemit
    by_cases hout : s.isSubmitted = false ∨
        (pr.allowMultipleSubmissions = true ∧ 0 < s.timeLeft ∧
          strTrim s.promptText ≠ "")
    · rw [if_pos hout] at hemit
      dsimp only at hemit
      by_cases hin : pr.hasOnSubmit = true ∧ strTrim s.promptText ≠ ""
      · rw [if_pos hin] at hemit
        dsimp only at hemit
        injection hemit with hpair
        injection hpair with hb ht
        exact ⟨hin.2, hb.symm, ht.symm⟩
      · rw [if_neg hin] at hemit
        dsimp only at hemit
        cases hemit
    · rw [if_neg hout] at hemit
      dsimp only at hemit
      cases hemit
  · intro htrim
    unfold submitEnabled
    rw [htrim]
    simp
  · intro ht hsub
    unfold tick
    rw [ht, hsub]
    rw [if_pos ⟨rfl, rfl, hon, by rw [hnone]; rfl⟩]
  · intro p0 n
    exact tickRun_emits pr hon hnone n 30 p0 (by omega)
  · have h5 := tickRun_emits pr hon hnone 30 30 "" (by omega)
    rw [if_pos (by omega)] at h5
    exact h5

/-- Witness for C9: with onSubmit provided, no prior submission, and an
empty textarea, the 30-tick run emits exactly one call — onSubmit(true, "")
— while the 29-tick run emits none and longer runs add nothing. -/
theorem promptCardSubmission_witness :
    (tickRun ⟨true, [], false⟩ 30 (cardStart "")).2 = [(true, "")] ∧
    (tickRun ⟨true, [], false⟩ 29 (cardStart "")).2 = [] ∧
    (tickRun ⟨true, [], false⟩ 45 (cardStart "")).2 = [(true, "")] := by
  have h := promptCardSubmission ⟨true, [], false⟩ (cardStart "") rfl rfl
  refine ⟨h.2.2.2.2, ?_, ?_⟩
  · rw [h.2.2.2.1 "" 29]
    rfl
  · rw [h.2.2.2.1 "" 45]
    rfl

/-- Claim C10: for every rating, opponent rating and result — and every
behavior of the exponential Math.pow(10, x) the formula consumes — the
rating update returns an integer in the closed interval from 1 to 100,
because the final clamp dominates the Elo arithmetic. -/
theorem ratingBounds (pow10 : ℚ → ℚ) (current opponent : ℚ)
    (result : DuelResult) :
    1 ≤ updateRating pow10 current opponent result ∧
    updateRating pow10 current opponent result ≤ 100 := by
  unfold updateRating
  exact ⟨le_max_left _ _, max_le (by norm_num) (min_le_left _ _)⟩

end CodeJam
